import Mathlib

/-!
Verification of the `xmodel-rest` REST client core (`xmodel_rest/client.py`)
against its natural-language specification.

The development shallowly embeds the algorithmic parts of `RestClient`:

* the per-object response state bookkeeping (`ResponseState` / `HttpState`,
  which lives in the external `xmodel` dependency and is modelled from the
  spec's data-model section),
* `parse_errors_from_send_response` and the response-processing part of
  `_send_objs_to_url` (send path),
* `do_delete_request` inside `delete_objs` (delete path),
* `_wrap_request` (transport retry / token refresh / transient-status retry),
* `parse_json_from_get_response` and the pagination loop of `_get_objects`,
* the batch planner `_do_http_method_on_objs`,
* the endpoint candidate search `url_for_endpoint`.

Machine-level details that are orthogonal to every claim (actual HTTP
transport, JSON syntax, URL string formatting, logging) are abstracted:
responses are given by their status code plus the already-extracted result
list, URL templates by their singular/methods/formattable data.
-/

/-! ## Response state

Modelled from the spec: the per-object `Response State` record
(`xmodel.remote.response_state.HttpState`) is declared in the external
`xmodel` package, not in this repository.  The spec describes it as
accumulating `had_error`, `response_code`, an error list, `try_count` and a
retry directive (none / resend-as-is / resend-with-payload-rebuilt), created
fresh (reset) before each top-level operation.  `reset(for_retry=True)`
(used by the planner before re-enqueuing a retryable object) clears the
error fields but keeps the accumulated `try_count`, which is what makes the
4-attempt ceiling in `_do_http_method_on_objs` effective. -/

/-- Retry directive values (`ResponseStateRetryValue.AS_IS` /
`EXPORT_JSON_AGAIN`). -/
inductive RetryVal where
  | asIs
  | exportJsonAgain
  deriving DecidableEq, Repr

/-- Modelled from the spec: per-object response state (`HttpState`). The
Python value `should_retry = False`/`None` (no directive) is `none`. -/
structure RS where
  had_error : Bool
  response_code : Option Nat
  errors : List String
  try_count : Nat
  should_retry : Option RetryVal
  did_send : Bool
  deriving DecidableEq, Repr

/-- Modelled from the spec: state after `response_state.reset()`, performed
by `_create_deque_verify_and_reset_http_state` on every object before a
top-level send/delete. -/
def RS.initial : RS :=
  { had_error := false, response_code := none, errors := [], try_count := 0,
    should_retry := none, did_send := false }

/-- Modelled from the spec: `response_state.reset(for_retry=True)` clears
the error fields but keeps `try_count` (and `did_send`), so the retry
ceiling can compare `try_count` across attempts. -/
def RS.resetForRetry (rs : RS) : RS :=
  { RS.initial with try_count := rs.try_count, did_send := rs.did_send }

/-- `client.py` lines 1520-1523: before parsing errors, `_send_objs_to_url`
does `http.try_count += 1; http.did_send = True` for every object sent. -/
def RS.markSent (rs : RS) : RS :=
  { rs with try_count := rs.try_count + 1, did_send := true }

/-! ## Batch planner (`_do_http_method_on_objs`, lines 1163-1398)

The planner works on a deque that can hold either raw model objects (still
to be converted by `object_to_request_item`) or already-converted buffer
items (re-enqueued by a `ResponseStateRetryValue.AS_IS` retry).  Objects are
identified by a numeric id (`oid`), standing for Python object identity;
claims are stated for lists of distinct ids.  Mutable per-object response
state is carried on the queue items themselves, which is observationally
equivalent when the ids are distinct. -/

/-- One entry of the planner's deque: either a model object (`RestModel`)
or a converted buffer item (the `(obj, json)` tuple; the JSON payload has
no influence on control flow, so it is not carried). -/
inductive QItem where
  | model (oid : Nat) (rs : RS)
  | bufItem (oid : Nat) (rs : RS)
  deriving DecidableEq, Repr

/-- Object identity of a queue item. -/
def QItem.oid : QItem → Nat
  | .model o _ => o
  | .bufItem o _ => o

/-- Response state carried by a queue item. -/
def QItem.rs : QItem → RS
  | .model _ r => r
  | .bufItem _ r => r

/-- Replace the response state of a queue item (the Python objects are
mutable; this is the functional counterpart). -/
def QItem.setRS : QItem → RS → QItem
  | .model o _, r => .model o r
  | .bufItem o _, r => .bufItem o r

/-- Result of the `url_generator` callback (`url_for_send` /
`url_for_delete`): either a `GeneratedURL` selecting a subset of the
buffered models (a plain `URL` return is wrapped by the planner into a
`GeneratedURL` selecting all models, line 1269-1270), or the falsy
`UseSingularValue` sentinel / `None`, both of which take the
fall-back-to-singular branch (line 1272). -/
inductive GenResult where
  | useSingular
  | generated (models : List Nat)
  deriving DecidableEq, Repr

/-- Lines 1311-1346: after a request, iterate the sent buffer items *in
reverse* and `appendleft` retryable ones onto the deque, so that re-enqueued
items end up at the front in their original relative order.  Iterating in
reverse with `appendleft` is exactly a right fold; non-re-enqueued items are
finished and collected with their final state. -/
def reenqStep (it : QItem) (acc : List QItem × List (Nat × RS)) :
    List QItem × List (Nat × RS) :=
  let rs := it.rs
  if rs.had_error then
    match rs.should_retry with
    | none => (acc.1, (it.oid, rs) :: acc.2)
    | some rv =>
      if 4 < rs.try_count then
        (acc.1, (it.oid, { rs with should_retry := none }) :: acc.2)
      else
        let rsR := { RS.resetForRetry rs with should_retry := none }
        match rv with
        | RetryVal.asIs => (QItem.bufItem it.oid rsR :: acc.1, acc.2)
        | RetryVal.exportJsonAgain => (QItem.model it.oid rsR :: acc.1, acc.2)
  else (acc.1, (it.oid, rs) :: acc.2)

/-- The whole retry feed-back pass over the sent items (lines 1311-1346):
returns the new deque and the (oid, final state) pairs of items that left
the planner. -/
def retryFeedback : List QItem → List QItem → List QItem × List (Nat × RS)
  | [], queue => (queue, [])
  | it :: rest, queue => reenqStep it (retryFeedback rest queue)

/-- Planner state: the pending deque (`objects`), the staging buffer
(`buffer_list`), the current batch size (`send_limit`, collapses to 1 on a
use-singular signal), plus the observables accumulated so far. -/
structure PState where
  queue : List QItem
  buffer : List QItem
  send_limit : Nat
  requests : List (List Nat)
  finished : List (Nat × RS)
  deriving Repr

/-- Observables of one planner run: the object ids of every physical
request in order, the final response state of every object that left the
planner, and the final batch size. -/
structure PlanResult where
  requests : List (List Nat)
  finished : List (Nat × RS)
  send_limit : Nat
  deriving DecidableEq, Repr

/-- The flush step of `_do_http_method_on_objs` (lines 1260-1365): ask the
url generator for a `GeneratedURL`, send the selected buffer items (whose
per-object effect is `eff`, standing for the request generator
`_send_objs_to_url` / `do_delete_request` plus error handlers), run the
retry feed-back, and keep unselected items in the buffer.  On a
use-singular signal with more than one buffered object, `extendleft` the
buffer back onto the deque (which reverses it) and drop to batch size 1;
with at most one buffered object the `assert buffer_count > 1` fails
(modelled as `none`). -/
def plannerFlush (gen : List Nat → GenResult) (eff : Nat → RS → RS)
    (st : PState) : Option PState :=
  match gen (st.buffer.map QItem.oid) with
  | GenResult.useSingular =>
    if st.buffer.length ≤ 1 then none
    else some { st with queue := st.buffer.reverse ++ st.queue, buffer := [],
                        send_limit := 1 }
  | GenResult.generated sel =>
    let parts :=
      if st.buffer.length = sel.length then (st.buffer, ([] : List QItem))
      else st.buffer.partition (fun it => sel.contains it.oid)
    let sent := parts.1.map (fun it => it.setRS (eff it.oid it.rs))
    let rf := retryFeedback sent st.queue
    some { queue := rf.1, buffer := parts.2, send_limit := st.send_limit,
           requests := st.requests ++ [parts.1.map QItem.oid],
           finished := st.finished ++ rf.2 }

/-- The fill step (lines 1367-1397): pop the leftmost deque entry; a model
object is converted (`object_to_request_item`), where `conv oid = false`
means "no payload, skip" (the object is dropped with `did_send = False`,
line 1378); buffer items are appended as-is. -/
def plannerFill (conv : Nat → Bool) (st : PState) : PState :=
  match st.queue with
  | [] => st
  | QItem.model o rs :: qs =>
    if conv o then
      { st with queue := qs, buffer := st.buffer ++ [QItem.bufItem o rs] }
    else
      { st with queue := qs,
                finished := st.finished ++ [(o, { rs with did_send := false })] }
  | QItem.bufItem o rs :: qs =>
    { st with queue := qs, buffer := st.buffer ++ [QItem.bufItem o rs] }

/-- The main loop of `_do_http_method_on_objs` (lines 1256-1397): while the
deque or the buffer is non-empty, flush when the buffer reached
`send_limit` or the deque drained, otherwise fill.  `fuel` bounds the
number of iterations; `none` means the fuel ran out or an assertion
failed. -/
def plannerLoop (gen : List Nat → GenResult) (conv : Nat → Bool)
    (eff : Nat → RS → RS) : Nat → PState → Option PlanResult
  | 0, _ => none
  | fuel + 1, st =>
    if st.queue = [] ∧ st.buffer = [] then
      some ⟨st.requests, st.finished, st.send_limit⟩
    else if st.send_limit ≤ st.buffer.length ∨ st.queue = [] then
      match plannerFlush gen eff st with
      | none => none
      | some st2 => plannerLoop gen conv eff fuel st2
    else plannerLoop gen conv eff fuel (plannerFill conv st)

/-- Initial planner state for a top-level `send_objs` / `delete_objs` call:
all objects are fresh models with reset response state, the buffer is empty
and `send_limit` is the requested batch size. -/
def planInit (objs : List Nat) (K : Nat) : PState :=
  { queue := objs.map (fun o => QItem.model o RS.initial), buffer := [],
    send_limit := K, requests := [], finished := [] }

/-- A url generator that always selects every buffered object (the shape of
`url_for_delete`, and of `url_for_send` when one URL matches all models). -/
def genSelectAll : List Nat → GenResult := fun ms => GenResult.generated ms

/-- An `object_to_request_item` conversion that never skips (the delete
path converts with the identity and never returns `None`). -/
def convAll : Nat → Bool := fun _ => true

/-- A request generator with no per-object state effect (every object
succeeds and nothing on its response state changes). -/
def noopEff : Nat → RS → RS := fun _ rs => rs

/-! ## Specification-side descriptions of a planner run -/

/-- Splitting a list into consecutive chunks of size `K` (the last chunk
may be shorter); the spec-side description of how the planner batches a
queue. -/
def chunksTD (K : Nat) (l : List Nat) : List (List Nat) :=
  if h : K = 0 ∨ l = [] then []
  else l.take K :: chunksTD K (l.drop K)
termination_by l.length
decreasing_by
  simp only [not_or] at h
  have h1 : 0 < K := Nat.pos_of_ne_zero h.1
  have h2 : l ≠ [] := h.2
  have := List.length_pos.mpr h2
  simp only [List.length_drop]
  omega

/-- The object ids the planner will actually send, in order: buffer items
pass through, model objects only if their conversion yields a payload. -/
def filtOids (conv : Nat → Bool) : List QItem → List Nat
  | [] => []
  | QItem.model o _ :: qs =>
    if conv o then o :: filtOids conv qs else filtOids conv qs
  | QItem.bufItem o _ :: qs => o :: filtOids conv qs

/-- Final (oid, state) pair of an object that went through one request. -/
def finSend (eff : Nat → RS → RS) (it : QItem) : Nat × RS :=
  (it.oid, eff it.oid it.rs)

/-- Specification of one planner run in which the url generator selects all
buffered objects and no object is ever re-enqueued: starting from buffer
`buf` (strictly below the batch size) and queue `queue`, returns the
requests that will be issued and the finished objects with their final
states, in order. -/
def planSpec (K : Nat) (eff : Nat → RS → RS) (conv : Nat → Bool) :
    List QItem → List QItem → List (List Nat) × List (Nat × RS)
  | buf, [] =>
    if buf = [] then ([], [])
    else ([buf.map QItem.oid], buf.map (finSend eff))
  | buf, QItem.model o rs :: qs =>
    if conv o then
      let buf' := buf ++ [QItem.bufItem o rs]
      if K ≤ buf'.length then
        let r := planSpec K eff conv [] qs
        (buf'.map QItem.oid :: r.1, buf'.map (finSend eff) ++ r.2)
      else planSpec K eff conv buf' qs
    else
      let r := planSpec K eff conv buf qs
      (r.1, (o, { rs with did_send := false }) :: r.2)
  | buf, QItem.bufItem o rs :: qs =>
    let buf' := buf ++ [QItem.bufItem o rs]
    if K ≤ buf'.length then
      let r := planSpec K eff conv [] qs
      (buf'.map QItem.oid :: r.1, buf'.map (finSend eff) ++ r.2)
    else planSpec K eff conv buf' qs

/-! ## Basic lemmas about the planner building blocks -/

@[simp] theorem QItem.oid_model (o : Nat) (rs : RS) : (QItem.model o rs).oid = o := rfl

@[simp] theorem QItem.oid_bufItem (o : Nat) (rs : RS) : (QItem.bufItem o rs).oid = o := rfl

@[simp] theorem QItem.rs_model (o : Nat) (rs : RS) : (QItem.model o rs).rs = rs := rfl

@[simp] theorem QItem.rs_bufItem (o : Nat) (rs : RS) : (QItem.bufItem o rs).rs = rs := rfl

@[simp] theorem QItem.oid_setRS (it : QItem) (r : RS) : (it.setRS r).oid = it.oid := by
  cases it <;> rfl

@[simp] theorem QItem.rs_setRS (it : QItem) (r : RS) : (it.setRS r).rs = r := by
  cases it <;> rfl

theorem chunksTD_nil (K : Nat) : chunksTD K [] = [] := by
  rw [chunksTD]; simp

theorem chunksTD_cons (K : Nat) (l : List Nat) (hK : K ≠ 0) (hl : l ≠ []) :
    chunksTD K l = l.take K :: chunksTD K (l.drop K) := by
  rw [chunksTD]; simp [hK, hl]

theorem chunksTD_flatten (K : Nat) (hK : 0 < K) (l : List Nat) :
    (chunksTD K l).flatten = l := by
  induction l using chunksTD.induct K with
  | case1 l h =>
    rcases h with h | h
    · omega
    · subst h; simp [chunksTD_nil]
  | case2 l h ih =>
    simp only [not_or] at h
    rw [chunksTD_cons K l h.1 h.2, List.flatten_cons, ih, List.take_append_drop]

theorem chunksTD_length (K : Nat) (hK : 0 < K) (l : List Nat) :
    (chunksTD K l).length = (l.length + K - 1) / K := by
  induction l using chunksTD.induct K with
  | case1 l h =>
    rcases h with h | h
    · omega
    · subst h
      rw [chunksTD_nil]
      simp only [List.length_nil, Nat.zero_add]
      exact (Nat.div_eq_of_lt (by omega)).symm
  | case2 l h ih =>
    simp only [not_or] at h
    have hpos : 0 < l.length := List.length_pos.mpr h.2
    rw [chunksTD_cons K l h.1 h.2]
    simp only [List.length_cons]
    by_cases hle : l.length ≤ K
    · have hdrop : l.drop K = [] := List.drop_eq_nil_of_le hle
      rw [hdrop, chunksTD_nil]
      simp only [List.length_nil]
      have h1 : 1 ≤ (l.length + K - 1) / K := by
        rw [Nat.le_div_iff_mul_le hK]
        omega
      have h2 : (l.length + K - 1) / K < 2 := by
        rw [Nat.div_lt_iff_lt_mul hK]
        omega
      omega
    · push_neg at hle
      rw [ih]
      simp only [List.length_drop]
      have e2 : l.length - K + K - 1 = l.length - 1 := by omega
      rw [e2]
      have e3 : (l.length + K - 1) / K = (l.length + K - 1 - K) / K + 1 :=
        Nat.div_eq_sub_div hK (by omega)
      have e4 : l.length + K - 1 - K = l.length - 1 := by omega
      rw [e3, e4]

theorem chunksTD_map_length (K : Nat) (hK : 0 < K) (l : List Nat) :
    (chunksTD K l).map List.length =
      List.replicate (l.length / K) K ++
        (if l.length % K = 0 then [] else [l.length % K]) := by
  induction l using chunksTD.induct K with
  | case1 l h =>
    rcases h with h | h
    · omega
    · subst h; simp [chunksTD_nil]
  | case2 l h ih =>
    simp only [not_or] at h
    have hpos : 0 < l.length := List.length_pos.mpr h.2
    rw [chunksTD_cons K l h.1 h.2]
    simp only [List.map_cons, List.length_take]
    rcases Nat.lt_trichotomy l.length K with hlt | heq | hgt
    · have hdrop : l.drop K = [] := List.drop_eq_nil_of_le (le_of_lt hlt)
      rw [hdrop, chunksTD_nil, Nat.div_eq_of_lt hlt, Nat.mod_eq_of_lt hlt,
          min_eq_right (le_of_lt hlt)]
      simp [Nat.pos_iff_ne_zero.mp hpos]
    · have hdrop : l.drop K = [] := List.drop_eq_nil_of_le (le_of_eq heq)
      rw [hdrop, chunksTD_nil, heq]
      simp [Nat.div_self hK, Nat.mod_self, List.replicate_succ]
    · rw [ih]
      simp only [List.length_drop]
      have e2 : l.length / K = (l.length - K) / K + 1 :=
        Nat.div_eq_sub_div hK (le_of_lt hgt)
      have e3 : l.length % K = (l.length - K) % K :=
        Nat.mod_eq_sub_mod (le_of_lt hgt)
      rw [e2, ← e3, min_eq_left (le_of_lt hgt), List.replicate_succ]
      simp

theorem chunksTD_one : ∀ l : List Nat, chunksTD 1 l = l.map (fun o => [o])
  | [] => by simp [chunksTD_nil]
  | o :: os => by
    rw [chunksTD_cons 1 (o :: os) one_ne_zero (by simp)]
    simp [chunksTD_one os]

theorem retryFeedback_noReenq (sent queue : List QItem)
    (h : ∀ it ∈ sent, it.rs.had_error = false ∨ it.rs.should_retry = none) :
    retryFeedback sent queue = (queue, sent.map (fun it => (it.oid, it.rs))) := by
  induction sent with
  | nil => rfl
  | cons it rest ih =>
    have hit := h it (by simp)
    have hrest : ∀ x ∈ rest, x.rs.had_error = false ∨ x.rs.should_retry = none :=
      fun x hx => h x (by simp [hx])
    rw [retryFeedback, ih hrest, reenqStep]
    rcases hit with he | hn
    · simp [he]
    · by_cases he2 : it.rs.had_error
      · simp [he2, hn]
      · simp [he2]

@[simp] theorem finSend_apply (eff : Nat → RS → RS) (it : QItem) :
    finSend eff it = (it.oid, eff it.oid it.rs) := rfl


theorem planSpec_fst (K : Nat) (eff : Nat → RS → RS) (conv : Nat → Bool) (hK : 0 < K) :
    ∀ queue buf, buf.length < K →
      (planSpec K eff conv buf queue).1 =
        chunksTD K (buf.map QItem.oid ++ filtOids conv queue) := by
  intro queue
  induction queue with
  | nil =>
    intro buf hb
    by_cases h : buf = []
    · subst h; simp [planSpec, filtOids, chunksTD_nil]
    · have hmap : buf.map QItem.oid ≠ [] := by
        simpa [List.map_eq_nil_iff] using h
      rw [chunksTD_cons K _ (Nat.pos_iff_ne_zero.mp hK) (by simp [filtOids, hmap])]
      have hlen : (buf.map QItem.oid).length ≤ K := by
        simp only [List.length_map]; omega
      simp [planSpec, h, filtOids, List.take_of_length_le hlen,
            List.drop_eq_nil_of_le hlen, chunksTD_nil]
  | cons q qs ih =>
    intro buf hb
    cases q with
    | model o rs =>
      by_cases hc : conv o
      · by_cases hfl : K ≤ (buf ++ [QItem.bufItem o rs]).length
        · have hne : List.map QItem.oid buf ++ [o] ++ filtOids conv qs ≠ [] := by simp
          have hBlen : (List.map QItem.oid buf ++ [o]).length = K := by
            simp only [List.length_append, List.length_singleton] at hfl
            simp only [List.length_append, List.length_map, List.length_singleton]
            omega
          simp only [planSpec, hc, if_true, hfl, if_pos hfl, filtOids]
          rw [ih [] (by simpa using hK)]
          simp only [List.map_nil, List.nil_append]
          rw [show List.map QItem.oid buf ++ o :: filtOids conv qs
                = List.map QItem.oid buf ++ [o] ++ filtOids conv qs by simp,
              chunksTD_cons K (List.map QItem.oid buf ++ [o] ++ filtOids conv qs)
                (Nat.pos_iff_ne_zero.mp hK) hne,
              List.take_left' hBlen, List.drop_left' hBlen]
          simp
        · simp only [planSpec, hc, if_true, if_neg hfl]
          push_neg at hfl
          rw [ih (buf ++ [QItem.bufItem o rs]) (by simpa using hfl)]
          simp [filtOids, hc, List.append_assoc]
      · simp only [planSpec, Bool.not_eq_true] at hc ⊢
        simp only [hc, Bool.false_eq_true, if_false]
        rw [ih buf hb]
        simp [filtOids, hc]
    | bufItem o rs =>
      by_cases hfl : K ≤ (buf ++ [QItem.bufItem o rs]).length
      · have hne : List.map QItem.oid buf ++ [o] ++ filtOids conv qs ≠ [] := by simp
        have hBlen : (List.map QItem.oid buf ++ [o]).length = K := by
          simp only [List.length_append, List.length_singleton] at hfl
          simp only [List.length_append, List.length_map, List.length_singleton]
          omega
        simp only [planSpec, hfl, if_pos hfl, filtOids]
        rw [ih [] (by simpa using hK)]
        simp only [List.map_nil, List.nil_append]
        rw [show List.map QItem.oid buf ++ o :: filtOids conv qs
              = List.map QItem.oid buf ++ [o] ++ filtOids conv qs by simp,
            chunksTD_cons K (List.map QItem.oid buf ++ [o] ++ filtOids conv qs)
              (Nat.pos_iff_ne_zero.mp hK) hne,
            List.take_left' hBlen, List.drop_left' hBlen]
        simp
      · simp only [planSpec, if_neg hfl]
        push_neg at hfl
        rw [ih (buf ++ [QItem.bufItem o rs]) (by simpa using hfl)]
        simp [filtOids, List.append_assoc]

theorem planSpec_snd (K : Nat) (eff : Nat → RS → RS) (conv : Nat → Bool)
    (hconv : ∀ o, conv o = true) :
    ∀ queue buf, (planSpec K eff conv buf queue).2 =
      (buf ++ queue).map (finSend eff) := by
  intro queue
  induction queue with
  | nil =>
    intro buf
    by_cases h : buf = []
    · subst h; simp [planSpec]
    · simp [planSpec, h]
  | cons q qs ih =>
    intro buf
    cases q with
    | model o rs =>
      by_cases hfl : K ≤ (buf ++ [QItem.bufItem o rs]).length
      · simp only [planSpec, hconv o, if_true, if_pos hfl]
        rw [ih []]
        simp [QItem.oid, QItem.rs]
      · simp only [planSpec, hconv o, if_true, if_neg hfl]
        rw [ih (buf ++ [QItem.bufItem o rs])]
        simp [QItem.oid, QItem.rs]
    | bufItem o rs =>
      by_cases hfl : K ≤ (buf ++ [QItem.bufItem o rs]).length
      · simp only [planSpec, if_pos hfl]
        rw [ih []]
        simp
      · simp only [planSpec, if_neg hfl]
        rw [ih (buf ++ [QItem.bufItem o rs])]
        simp

/-- When the url generator selects every buffered object and the request
effect never leaves a retryable error behind, one flush sends the whole
buffer, re-enqueues nothing and finishes all sent objects. -/
theorem plannerFlush_selectAll (gen : List Nat → GenResult) (eff : Nat → RS → RS)
    (st : PState)
    (hgen : gen (st.buffer.map QItem.oid) = GenResult.generated (st.buffer.map QItem.oid))
    (hsafe : ∀ it ∈ st.buffer,
        (eff it.oid it.rs).had_error = false ∨ (eff it.oid it.rs).should_retry = none) :
    plannerFlush gen eff st = some
      { queue := st.queue, buffer := [], send_limit := st.send_limit,
        requests := st.requests ++ [st.buffer.map QItem.oid],
        finished := st.finished ++ st.buffer.map (finSend eff) } := by
  have hsent : ∀ it ∈ st.buffer.map (fun it => it.setRS (eff it.oid it.rs)),
      it.rs.had_error = false ∨ it.rs.should_retry = none := by
    intro it hit
    obtain ⟨x, hx, rfl⟩ := List.mem_map.mp hit
    simpa using hsafe x hx
  simp only [plannerFlush, hgen, List.length_map, eq_self_iff_true, if_true]
  rw [retryFeedback_noReenq _ _ hsent]
  simp [List.map_map, Function.comp_def]

/-- Main planner lemma: when the url generator always selects all buffered
objects (for every batch it can be asked about) and the request effect never
leaves a retryable error, a terminating planner run issues exactly the
requests described by `planSpec`, finishes exactly the objects described by
`planSpec`, and never changes the batch size. -/
theorem plannerLoop_selectAll (gen : List Nat → GenResult) (conv : Nat → Bool)
    (eff : Nat → RS → RS) :
    ∀ fuel (st : PState) (res : PlanResult),
      0 < st.send_limit →
      st.buffer.length < st.send_limit →
      (∀ ms, ms.length ≤ st.send_limit → gen ms = GenResult.generated ms) →
      (∀ it ∈ st.buffer ++ st.queue,
          (eff it.oid it.rs).had_error = false ∨ (eff it.oid it.rs).should_retry = none) →
      plannerLoop gen conv eff fuel st = some res →
      res.requests = st.requests ++ (planSpec st.send_limit eff conv st.buffer st.queue).1 ∧
      res.finished = st.finished ++ (planSpec st.send_limit eff conv st.buffer st.queue).2 ∧
      res.send_limit = st.send_limit := by
  intro fuel
  induction fuel using Nat.strong_induction_on with
  | _ fuel IH =>
  intro st res hK hbuf hgen hsafe h
  cases fuel with
  | zero => simp [plannerLoop] at h
  | succ fuel =>
  rw [plannerLoop] at h
  by_cases hempty : st.queue = [] ∧ st.buffer = []
  · rw [if_pos hempty] at h
    obtain ⟨h1, h2⟩ := hempty
    injection h with h
    subst h
    simp [h1, h2, planSpec]
  · rw [if_neg hempty] at h
    by_cases hflush : st.send_limit ≤ st.buffer.length ∨ st.queue = []
    · have hq : st.queue = [] := by
        rcases hflush with h' | h'
        · omega
        · exact h'
      have hbne : st.buffer ≠ [] := fun hb => hempty ⟨hq, hb⟩
      rw [if_pos hflush,
          plannerFlush_selectAll gen eff st
            (hgen _ (by simp only [List.length_map]; omega))
            (fun it hit => hsafe it (List.mem_append_left _ hit))] at h
      obtain ⟨r1, r2, r3⟩ :=
        IH fuel (Nat.lt_succ_self fuel) _ res (by simpa using hK) (by simpa using hK)
          (by simpa using hgen)
          (by intro it hit; rw [hq] at hit; simp at hit) h
      refine ⟨?_, ?_, by simpa using r3⟩
      · rw [r1]
        simp [hq, planSpec, hbne]
      · rw [r2]
        simp [hq, planSpec, hbne]
    · rw [if_neg hflush] at h
      push_neg at hflush
      obtain ⟨hlt, hqne⟩ := hflush
      rcases hqeq : st.queue with _ | ⟨q, qs⟩
      · exact absurd hqeq hqne
      · simp only [plannerFill, hqeq] at h
        cases q with
        | model o rs =>
          by_cases hc : conv o
          · simp only [hc, if_true] at h
            have hsafe1 : ∀ it ∈ (st.buffer ++ [QItem.bufItem o rs]) ++ qs,
                (eff it.oid it.rs).had_error = false ∨
                  (eff it.oid it.rs).should_retry = none := by
              intro it hit
              rcases List.mem_append.mp hit with hit1 | hit2
              · rcases List.mem_append.mp hit1 with hb | hs
                · exact hsafe it (List.mem_append_left _ hb)
                · have hx : it = QItem.bufItem o rs := by simpa using hs
                  subst hx
                  have := hsafe (QItem.model o rs)
                    (by rw [hqeq]
                        exact List.mem_append_right _ (List.mem_cons_self _ _))
                  simpa using this
              · exact hsafe it
                  (by rw [hqeq]
                      exact List.mem_append_right _ (List.mem_cons_of_mem _ hit2))
            by_cases hfit : st.buffer.length + 1 < st.send_limit
            · obtain ⟨r1, r2, r3⟩ :=
                IH fuel (Nat.lt_succ_self fuel) _ res (by simpa using hK)
                  (by simpa using hfit) (by simpa using hgen) (by simpa using hsafe1) h
              have hcond : ¬ st.send_limit ≤ (st.buffer ++ [QItem.bufItem o rs]).length := by
                simp only [List.length_append, List.length_singleton]
                omega
              refine ⟨?_, ?_, by simpa using r3⟩
              · rw [r1]
                simp only [planSpec, hc, if_true, if_neg hcond]
              · rw [r2]
                simp only [planSpec, hc, if_true, if_neg hcond]
            · have hfeq : st.buffer.length + 1 = st.send_limit := by omega
              cases fuel with
              | zero => simp [plannerLoop] at h
              | succ fuel2 =>
                rw [plannerLoop] at h
                rw [if_neg (by simp)] at h
                rw [if_pos (Or.inl (by simp only [List.length_append, List.length_singleton]; omega))] at h
                rw [plannerFlush_selectAll gen eff _
                      (hgen _ (by simp only [List.length_map, List.length_append,
                                             List.length_singleton]; omega))
                      (fun it hit => hsafe1 it (List.mem_append_left _ hit))] at h
                obtain ⟨r1, r2, r3⟩ :=
                  IH fuel2 (by omega) _ res (by simpa using hK) (by simpa using hK)
                    (by simpa using hgen)
                    (by intro it hit; simp only [List.nil_append] at hit
                        exact hsafe1 it (List.mem_append_right _ hit)) h
              
                have hcond : st.send_limit ≤ (st.buffer ++ [QItem.bufItem o rs]).length := by
                  simp only [List.length_append, List.length_singleton]
                  omega
                refine ⟨?_, ?_, by simpa using r3⟩
                · rw [r1]
                  simp only [planSpec, hc, if_true, if_pos hcond]
                  simp [List.append_assoc]
                · rw [r2]
                  simp only [planSpec, hc, if_true, if_pos hcond]
                  simp [List.append_assoc]
          · simp only [hc, Bool.false_eq_true, if_false] at h
            have hsafe1 : ∀ it ∈ st.buffer ++ qs,
                (eff it.oid it.rs).had_error = false ∨
                  (eff it.oid it.rs).should_retry = none := by
              intro it hit
              simp only [List.mem_append] at hit
              rcases hit with hit | hit
              · exact hsafe it (List.mem_append_left _ hit)
              · exact hsafe it (by simp [hqeq, hit])
            obtain ⟨r1, r2, r3⟩ :=
              IH fuel (Nat.lt_succ_self fuel) _ res (by simpa using hK)
                (by simpa using hbuf) (by simpa using hgen) (by simpa using hsafe1) h
            refine ⟨?_, ?_, by simpa using r3⟩
            · rw [r1]
              simp only [planSpec, hc, Bool.false_eq_true, if_false]
            · rw [r2]
              simp only [planSpec, hc, Bool.false_eq_true, if_false]
              simp [List.append_assoc]
        | bufItem o rs =>
          have hsafe1 : ∀ it ∈ (st.buffer ++ [QItem.bufItem o rs]) ++ qs,
              (eff it.oid it.rs).had_error = false ∨
                (eff it.oid it.rs).should_retry = none := by
            intro it hit
            rcases List.mem_append.mp hit with hit1 | hit2
            · rcases List.mem_append.mp hit1 with hb | hs
              · exact hsafe it (List.mem_append_left _ hb)
              · have hx : it = QItem.bufItem o rs := by simpa using hs
                subst hx
                exact hsafe (QItem.bufItem o rs)
                  (by rw [hqeq]
                      exact List.mem_append_right _ (List.mem_cons_self _ _))
            · exact hsafe it
                (by rw [hqeq]
                    exact List.mem_append_right _ (List.mem_cons_of_mem _ hit2))
          by_cases hfit : st.buffer.length + 1 < st.send_limit
          · obtain ⟨r1, r2, r3⟩ :=
              IH fuel (Nat.lt_succ_self fuel) _ res (by simpa using hK)
                (by simpa using hfit) (by simpa using hgen) (by simpa using hsafe1) h
            have hcond : ¬ st.send_limit ≤ (st.buffer ++ [QItem.bufItem o rs]).length := by
              simp only [List.length_append, List.length_singleton]
              omega
            refine ⟨?_, ?_, by simpa using r3⟩
            · rw [r1]
              simp only [planSpec, if_neg hcond]
            · rw [r2]
              simp only [planSpec, if_neg hcond]
          · have hfeq : st.buffer.length + 1 = st.send_limit := by omega
            cases fuel with
            | zero => simp [plannerLoop] at h
            | succ fuel2 =>
              rw [plannerLoop] at h
              rw [if_neg (by simp)] at h
              rw [if_pos (Or.inl (by simp only [List.length_append, List.length_singleton]; omega))] at h
              rw [plannerFlush_selectAll gen eff _
                    (hgen _ (by simp only [List.length_map, List.length_append,
                                           List.length_singleton]; omega))
                    (fun it hit => hsafe1 it (List.mem_append_left _ hit))] at h
              obtain ⟨r1, r2, r3⟩ :=
                IH fuel2 (by omega) _ res (by simpa using hK) (by simpa using hK)
                  (by simpa using hgen)
                  (by intro it hit; simp only [List.nil_append] at hit
                      exact hsafe1 it (List.mem_append_right _ hit)) h
              have hcond : st.send_limit ≤ (st.buffer ++ [QItem.bufItem o rs]).length := by
                simp only [List.length_append, List.length_singleton]
                omega
              refine ⟨?_, ?_, by simpa using r3⟩
              · rw [r1]
                simp only [planSpec, if_pos hcond]
                simp [List.append_assoc]
              · rw [r2]
                simp only [planSpec, if_pos hcond]
                simp [List.append_assoc]

/-- A request effect whose reconciliation always marks the object errored
and retryable: `_send_objs_to_url` increments `try_count` / sets `did_send`
(lines 1520-1523), the response parsing records the error (status 422 is
outside the default raise set) and an error handler requests
`retry_send(AS_IS)`. -/
def alwaysRetryEff : Nat → RS → RS := fun _ rs =>
  { RS.markSent rs with
      had_error := true,
      response_code := some 422,
      errors := ["err"],
      should_retry := some RetryVal.asIs }

/-- The shape of `url_for_send` when no multi-object URL exists: with two
or more models it returns the falsy `UseSingularValue` sentinel, with at
most one model it resolves a singular URL for exactly those models. -/
def genSingularFallback : List Nat → GenResult := fun ms =>
  if 2 ≤ ms.length then GenResult.useSingular else GenResult.generated ms

/-- `delete_objs.do_delete_request` (lines 364-410), response handling: on
a status `>= 300` it logs and sets `had_error = True` on every object of
the batch; it raises nothing, touches no other response-state field and
sets no retry directive.  On a status `< 300` it changes nothing. -/
def do_delete_request_effect (status : Nat) (rs : RS) : RS :=
  if 300 ≤ status then { rs with had_error := true } else rs

/-- Whether/how one sent item is re-enqueued by the retry feed-back
(lines 1313-1346): `none` means the object leaves the planner, `some it2`
is the item put back at the front of the deque. -/
def reenqOf (it : QItem) : Option QItem :=
  if it.rs.had_error then
    match it.rs.should_retry with
    | none => none
    | some rv =>
      if 4 < it.rs.try_count then none
      else
        match rv with
        | RetryVal.asIs =>
          some (QItem.bufItem it.oid { RS.resetForRetry it.rs with should_retry := none })
        | RetryVal.exportJsonAgain =>
          some (QItem.model it.oid { RS.resetForRetry it.rs with should_retry := none })
  else none

/-- The retry feed-back puts exactly the retryable items back, at the front
of the deque and in their original relative order (the code iterates the
sent list in reverse and uses `appendleft`). -/
theorem retryFeedback_fst (sent queue : List QItem) :
    (retryFeedback sent queue).1 = sent.filterMap reenqOf ++ queue := by
  induction sent with
  | nil => rfl
  | cons it rest ih =>
    simp only [retryFeedback, List.filterMap_cons]
    by_cases he : it.rs.had_error
    · rcases hs : it.rs.should_retry with _ | rv
      · simp [reenqStep, reenqOf, he, hs, ih]
      · by_cases ht : 4 < it.rs.try_count
        · simp [reenqStep, reenqOf, he, hs, ht, ih]
        · cases rv <;> simp [reenqStep, reenqOf, he, hs, ht, ih]
    · simp [reenqStep, reenqOf, he, ih]

theorem filtOids_map_model (conv : Nat → Bool) (hconv : ∀ o, conv o = true)
    (objs : List Nat) (rs : RS) :
    filtOids conv (objs.map (fun o => QItem.model o rs)) = objs := by
  induction objs with
  | nil => rfl
  | cons o os ih => simp [filtOids, hconv o, ih]

theorem filtOids_map_bufItem (conv : Nat → Bool) (objs : List Nat) (rs : RS) :
    filtOids conv (objs.map (fun o => QItem.bufItem o rs)) = objs := by
  induction objs with
  | nil => rfl
  | cons o os ih => simp [filtOids, ih]

/-- C2: for all N >= 0 objects submitted to the batch planner with a URL
generator that always selects all buffered objects and batch size limit K,
the planner issues exactly ceil(N/K) requests, the requests are the
consecutive K-chunks of the input (so every object appears in exactly one
request), and the request sizes in order are K repeated floor(N/K) times
followed by N mod K when nonzero. -/
theorem claim_C2_batch_sizes (objs : List Nat) (K fuel : Nat) (res : PlanResult)
    (hK : 0 < K)
    (h : plannerLoop genSelectAll convAll noopEff fuel (planInit objs K) = some res) :
    res.requests = chunksTD K objs ∧
    res.requests.length = (objs.length + K - 1) / K ∧
    res.requests.map List.length =
      List.replicate (objs.length / K) K ++
        (if objs.length % K = 0 then [] else [objs.length % K]) ∧
    res.requests.flatten = objs := by
  obtain ⟨r1, r2, r3⟩ :=
    plannerLoop_selectAll genSelectAll convAll noopEff fuel (planInit objs K) res
      (by simpa [planInit] using hK)
      (by simpa [planInit] using hK)
      (fun ms _ => rfl)
      (by intro it hit
          simp only [planInit, List.nil_append] at hit
          obtain ⟨o, _, rfl⟩ := List.mem_map.mp hit
          left
          rfl) h
  have hreq : res.requests = chunksTD K objs := by
    rw [r1]
    simp only [planInit, List.nil_append]
    rw [planSpec_fst K noopEff convAll hK _ [] (by simpa using hK)]
    simp [filtOids_map_model convAll (fun _ => rfl)]
  exact ⟨hreq, by rw [hreq, chunksTD_length K hK],
         by rw [hreq, chunksTD_map_length K hK],
         by rw [hreq, chunksTD_flatten K hK]⟩

/-- Witness for C2 at a concrete input: five objects with batch size 2 give
three requests sized [2, 2, 1]. -/
theorem claim_C2_batch_sizes_witness :
    (plannerLoop genSelectAll convAll noopEff 20 (planInit [10, 11, 12, 13, 14] 2)).elim
        False (fun res =>
      res.requests = chunksTD 2 [10, 11, 12, 13, 14] ∧
      res.requests.length = (([10, 11, 12, 13, 14] : List Nat).length + 2 - 1) / 2 ∧
      res.requests.map List.length =
        List.replicate (([10, 11, 12, 13, 14] : List Nat).length / 2) 2 ++
          (if ([10, 11, 12, 13, 14] : List Nat).length % 2 = 0 then []
           else [([10, 11, 12, 13, 14] : List Nat).length % 2]) ∧
      res.requests.flatten = [10, 11, 12, 13, 14]) := by
  exact claim_C2_batch_sizes [10, 11, 12, 13, 14] 2 20 _ (by decide) rfl

/-- C3: an object whose reconciliation always marks it retryable is sent
once and resent exactly 4 more times, then abandoned: it finishes with
`had_error = true`, its retry directive cleared and `try_count = 5`, and it
is never re-enqueued again (the request log stops at five requests).
Moreover (second conjunct) the retry feed-back reinserts retryable objects
at the front of the queue preserving their relative order. -/
theorem claim_C3_retry_ceiling :
    (∀ oid : Nat,
      plannerLoop genSelectAll convAll alwaysRetryEff 12 (planInit [oid] 5) =
        some { requests := [[oid], [oid], [oid], [oid], [oid]],
               finished := [(oid,
                 { had_error := true, response_code := some 422, errors := ["err"],
                   try_count := 5, should_retry := none, did_send := true })],
               send_limit := 5 }) ∧
    (∀ sent queue : List QItem,
      (retryFeedback sent queue).1 = sent.filterMap reenqOf ++ queue) := by
  refine ⟨fun oid => ?_, retryFeedback_fst⟩
  simp [plannerLoop, plannerFill, plannerFlush, planInit, genSelectAll, convAll,
        alwaysRetryEff, retryFeedback, reenqStep, RS.markSent, RS.initial,
        RS.resetForRetry, QItem.oid, QItem.rs, QItem.setRS]

/-- C9: a delete batch whose response has status `>= 300` raises nothing
and triggers no retry: the planner sends every object exactly once (the
requests are the K-chunks of the input), and every object finishes with
`had_error = true`, no retry directive and no other state change; a status
`< 300` leaves `had_error` unset.  This holds for every status, including
5xx. -/
theorem claim_C9_delete_status_handling (objs : List Nat) (status K fuel : Nat)
    (res : PlanResult) (hK : 0 < K)
    (h : plannerLoop genSelectAll convAll
          (fun _ rs => do_delete_request_effect status rs) fuel
          (planInit objs K) = some res) :
    res.requests.flatten = objs ∧
    res.requests = chunksTD K objs ∧
    res.finished = objs.map (fun o => (o, do_delete_request_effect status RS.initial)) ∧
    (∀ p ∈ res.finished, p.2.had_error = decide (300 ≤ status)) ∧
    (∀ p ∈ res.finished, p.2.should_retry = none) ∧
    (status < 300 → ∀ p ∈ res.finished, p.2 = RS.initial) := by
  obtain ⟨r1, r2, r3⟩ :=
    plannerLoop_selectAll genSelectAll convAll
      (fun _ rs => do_delete_request_effect status rs) fuel (planInit objs K) res
      (by simpa [planInit] using hK)
      (by simpa [planInit] using hK)
      (fun ms _ => rfl)
      (by intro it hit
          simp only [planInit, List.nil_append] at hit
          obtain ⟨o, _, rfl⟩ := List.mem_map.mp hit
          right
          by_cases h3 : 300 ≤ status <;>
            simp [do_delete_request_effect, h3, RS.initial]) h
  have hreq : res.requests = chunksTD K objs := by
    rw [r1]
    simp only [planInit, List.nil_append]
    rw [planSpec_fst K _ convAll hK _ [] (by simpa using hK)]
    simp [filtOids_map_model convAll (fun _ => rfl)]
  have hfin : res.finished =
      objs.map (fun o => (o, do_delete_request_effect status RS.initial)) := by
    rw [r2]
    simp only [planInit, List.nil_append]
    rw [planSpec_snd K _ convAll (fun _ => rfl) _ []]
    simp [List.map_map, Function.comp_def]
  refine ⟨by rw [hreq, chunksTD_flatten K hK], hreq, hfin, ?_, ?_, ?_⟩
  · intro p hp
    rw [hfin] at hp
    obtain ⟨o, _, rfl⟩ := List.mem_map.mp hp
    by_cases h3 : 300 ≤ status <;> simp [do_delete_request_effect, h3, RS.initial]
  · intro p hp
    rw [hfin] at hp
    obtain ⟨o, _, rfl⟩ := List.mem_map.mp hp
    by_cases h3 : 300 ≤ status <;> simp [do_delete_request_effect, h3, RS.initial]
  · intro hlt p hp
    rw [hfin] at hp
    obtain ⟨o, _, rfl⟩ := List.mem_map.mp hp
    have h3 : ¬ 300 ≤ status := by omega
    simp [do_delete_request_effect, h3]

/-- Witness for C9 at a concrete input: three objects deleted with batch
size 2 and a 500 response are each sent once and all end in the error
state; with a 204 response they end unchanged. -/
theorem claim_C9_delete_status_handling_witness :
    ((plannerLoop genSelectAll convAll
        (fun _ rs => do_delete_request_effect 500 rs) 20
        (planInit [1, 2, 3] 2)).elim False (fun res =>
      res.requests.flatten = [1, 2, 3] ∧
      res.requests = chunksTD 2 [1, 2, 3] ∧
      res.finished = [1, 2, 3].map (fun o => (o, do_delete_request_effect 500 RS.initial)) ∧
      (∀ p ∈ res.finished, p.2.had_error = decide (300 ≤ 500)) ∧
      (∀ p ∈ res.finished, p.2.should_retry = none) ∧
      (500 < 300 → ∀ p ∈ res.finished, p.2 = RS.initial))) := by
  exact claim_C9_delete_status_handling [1, 2, 3] 500 2 20 _ (by decide) rfl

/-- A run of the planner in which the url generator signals use-singular as
soon as more than one object is buffered: the whole buffer is pushed back
with `extendleft` (reversing it), the batch size drops to 1, and the
remaining sends happen one object at a time in reverse submission order. -/
theorem plannerLoop_singular_fallback :
    ∀ fuel (B Q : List Nat) (reqs : List (List Nat)) (fins : List (Nat × RS))
      (K : Nat) (res : PlanResult),
      2 ≤ B.length + Q.length → B.length + Q.length ≤ K →
      plannerLoop genSingularFallback convAll noopEff fuel
        { queue := Q.map (fun o => QItem.model o RS.initial),
          buffer := B.map (fun o => QItem.bufItem o RS.initial),
          send_limit := K, requests := reqs, finished := fins } = some res →
      res.requests = reqs ++ (B ++ Q).reverse.map (fun o => [o]) ∧
      res.send_limit = 1 := by
  intro fuel
  induction fuel with
  | zero =>
    intro B Q reqs fins K res h2 hle h
    simp [plannerLoop] at h
  | succ fuel IH =>
    intro B Q reqs fins K res h2 hle h
    rw [plannerLoop] at h
    cases Q with
    | nil =>
      have hBlen : 2 ≤ B.length := by simpa using h2
      have hBne : B ≠ [] := by
        intro hb
        subst hb
        simp at hBlen
      rw [if_neg (by simp [List.map_eq_nil_iff, hBne])] at h
      rw [if_pos (Or.inr (by simp))] at h
      have hgb : genSingularFallback
          ((B.map (fun o => QItem.bufItem o RS.initial)).map QItem.oid) =
          GenResult.useSingular := by
        simp [genSingularFallback, hBlen]
      rw [plannerFlush, hgb] at h
      rw [if_neg (by simp only [List.length_map]; omega)] at h
      obtain ⟨r1, r2, r3⟩ :=
        plannerLoop_selectAll genSingularFallback convAll noopEff fuel _ res
          (by simp)
          (by simp)
          (by intro ms hms
              simp only at hms
              simp [genSingularFallback]
              omega)
          (by intro it hit
              simp only [List.map_nil, List.nil_append, List.append_nil,
                         List.mem_reverse] at hit
              obtain ⟨o, _, rfl⟩ := List.mem_map.mp hit
              left
              rfl) h
      constructor
      · rw [r1]
        simp only [List.append_nil]
        rw [planSpec_fst 1 noopEff convAll (by omega) _ [] (by simp)]
        simp only [List.map_nil, List.nil_append]
        rw [show (List.map (fun o => QItem.bufItem o RS.initial) B).reverse
              = B.reverse.map (fun o => QItem.bufItem o RS.initial) from
            (List.map_reverse _ _).symm,
            List.append_nil, filtOids_map_bufItem, chunksTD_one]
      · simpa using r3
    | cons o Q2 =>
      rw [if_neg (by simp)] at h
      rw [if_neg (by
            simp only [not_or]
            constructor
            · simp only [List.length_map, not_le]
              simp only [List.length_cons] at hle
              omega
            · simp)] at h
      simp only [plannerFill, List.map_cons, convAll, if_true] at h
      have hmap : B.map (fun o => QItem.bufItem o RS.initial) ++
          [QItem.bufItem o RS.initial] =
          (B ++ [o]).map (fun o => QItem.bufItem o RS.initial) := by
        simp
      rw [hmap] at h
      obtain ⟨r1, r2⟩ := IH (B ++ [o]) Q2 reqs fins K res
        (by simp only [List.length_append, List.length_singleton]
            simp only [List.length_cons] at h2
            omega)
        (by simp only [List.length_append, List.length_singleton]
            simp only [List.length_cons] at hle
            omega) h
      refine ⟨?_, r2⟩
      rw [r1]
      simp [List.append_assoc]

/-- C10: when the url generator signals use-singular while n >= 2 objects
are buffered, the buffered objects go back onto the pending deque via
`deque.extendleft` without a prior reverse, so the subsequent one-at-a-time
singular sends occur in the reverse of the objects' original submission
order, and the batch size stays 1 for the remainder of the operation. -/
theorem claim_C10_use_singular_reversal (objs : List Nat) (K fuel : Nat)
    (res : PlanResult) (h2 : 2 ≤ objs.length) (hK : objs.length ≤ K)
    (h : plannerLoop genSingularFallback convAll noopEff fuel
          (planInit objs K) = some res) :
    res.requests = objs.reverse.map (fun o => [o]) ∧ res.send_limit = 1 := by
  have := plannerLoop_singular_fallback fuel [] objs [] [] K res
    (by simpa using h2) (by simpa using hK) (by simpa [planInit] using h)
  simpa using this

/-- Witness for C10 at a concrete input: objects [1, 2, 3] buffered under a
use-singular generator are sent as [[3], [2], [1]] with batch size 1. -/
theorem claim_C10_use_singular_reversal_witness :
    (plannerLoop genSingularFallback convAll noopEff 20 (planInit [1, 2, 3] 5)).elim
        False (fun res =>
      res.requests = ([1, 2, 3] : List Nat).reverse.map (fun o => [o]) ∧
      res.send_limit = 1) := by
  exact claim_C10_use_singular_reversal [1, 2, 3] 5 20 _ (by decide) (by decide) rfl

/-! ## Send path: `parse_errors_from_send_response` and `_send_objs_to_url`

The transport, URL handling and JSON parsing are abstracted: a response is
its status code, its raw text, and the positional result list (already
unwrapped from the configured multiple-results key; entry `true` stands for
a non-empty JSON dict at that index, `false` for an empty/non-dict entry).
The per-object model state is its response state plus a `merged` flag that
records whether `update_from_json` was applied with data from this
response. -/

/-- A model object as seen by the send path: its response state plus
whether returned fields have been merged onto it
(`api.update_from_json`). -/
structure MObj where
  rs : RS
  merged : Bool
  deriving DecidableEq, Repr

/-- `client.py` line 57:
`DefaultStatusSetToRaiseForSending = frozenset(xloop([400, 401, 403], range(500, 599)))`.
Note that Python `range(500, 599)` contains 500..598 only. -/
def DefaultStatusSetToRaiseForSending : List Nat :=
  [400, 401, 403] ++ List.range' 500 99

/-- `parse_errors_from_send_response` (lines 751-913) with the default
status-to-raise configuration (`method_status_to_raise_by_default = None`):
a status below 300 does nothing; otherwise every request object gets
`had_error = True`, `response_code` and `errors = [response.text]`, and
*afterwards* an error is raised (`true` in the second component) exactly
when the status is `>= 600` or in `DefaultStatusSetToRaiseForSending`. -/
def parse_errors_from_send_response (status : Nat) (respText : String)
    (request_objs : List MObj) : List MObj × Bool :=
  if status < 300 then (request_objs, false)
  else
    let objs := request_objs.map (fun o =>
      { o with rs :=
          { o.rs with
              had_error := true,
              response_code := some status,
              errors := [respText] } })
    (objs, decide (600 ≤ status) || decide (status ∈ DefaultStatusSetToRaiseForSending))

/-- The per-object attribution loop at the end of `_send_objs_to_url`
(lines 1543-1632): result list entries map to objects positionally;
`n` is `resp_list_len`, which is zero unless the status was below 300.  An
object without an error merges the returned fields when its positional
entry exists and is a non-empty dict; an object with an error runs the
error-handler chain (`handlerEff`, an injected callable). -/
def sendMergeLoop (handlerEff : MObj → MObj) (respList : List Bool) (n : Nat)
    (objs : List MObj) : List MObj :=
  objs.enum.map (fun p =>
    if p.2.rs.had_error then handlerEff p.2
    else if p.1 < n ∧ respList.getD p.1 false then { p.2 with merged := true }
    else p.2)

/-- Response handling of `_send_objs_to_url` (lines 1490-1632) for a
non-singular batch: mark every object sent, attribute errors (which may
raise, returning `true` as second component with the states as they were at
the moment of the raise), and only when no error was raised merge results
positionally.  `resp_list_len` is 0 for statuses `>= 300` (line 1544), so
errored responses never merge fields. -/
def sendObjsToUrl (status : Nat) (respText : String) (respList : List Bool)
    (handlerEff : MObj → MObj) (objs : List MObj) : List MObj × Bool :=
  let objs1 := objs.map (fun o => { o with rs := RS.markSent o.rs })
  let pe := parse_errors_from_send_response status respText objs1
  if pe.2 then (pe.1, true)
  else
    let n := if status < 300 then respList.length else 0
    (sendMergeLoop handlerEff respList n pe.1, false)

/-- C1 (code bug exhibit): the default raise set is built with Python
`range(500, 599)`, which excludes 599, and the separate `>= 600` guard does
not cover it either.  So a batch send whose response status is 599 — a 5xx
status that the claim, the spec and the method's own docstring
("POST/PUT/PATCH: 400, 401, 403, 500-599") place in the raise set — does
NOT raise: the call returns normally with every object marked
`had_error = true` and nothing merged, while the neighbouring statuses 598
and 600 do raise.  For statuses the code does raise on, the raise happens
after the error states are set and before any merge, as the claim says. -/
theorem claim_C1_raise_set_misses_599 :
    (500 ≤ 599 ∧ 599 < 600) ∧
    599 ∉ DefaultStatusSetToRaiseForSending ∧
    598 ∈ DefaultStatusSetToRaiseForSending ∧
    sendObjsToUrl 599 "err" [true] (fun o => o) [⟨RS.initial, false⟩] =
      ([⟨{ had_error := true, response_code := some 599, errors := ["err"],
           try_count := 1, should_retry := none, did_send := true }, false⟩], false) ∧
    (sendObjsToUrl 598 "err" [true] (fun o => o) [⟨RS.initial, false⟩]).2 = true ∧
    (sendObjsToUrl 600 "err" [true] (fun o => o) [⟨RS.initial, false⟩]).2 = true ∧
    (sendObjsToUrl 598 "err" [true] (fun o => o) [⟨RS.initial, false⟩]).1 =
      [⟨{ had_error := true, response_code := some 598, errors := ["err"],
          try_count := 1, should_retry := none, did_send := true }, false⟩] := by
  decide

/-! ## Request executor: `_wrap_request` (lines 1634-1737)

The transport is a re-invocable request builder (`handler`), modelled as a
function from the invocation index to its outcome; each outcome is either a
raised transport exception or a response identified by its status code.
`retry_requests` is the settings flag after applying its `Default -> True`
rule (lines 1672-1676).  `Session.grab().reset()` (session.py lines 38-41)
discards the shared requests session so the next request opens a fresh
connection; the model records whether it was called. -/

/-- Transport-level exceptions caught by the executor (line 1680):
`ConnectionResetError`, `ConnectionAbortedError`, requests'
`ConnectionError` and `Timeout`; `ReadTimeout` is the `Timeout` subclass
checked separately at line 1696. -/
inductive TErr where
  | connReset
  | connAborted
  | connErr
  | timeoutErr
  | readTimeout
  deriving DecidableEq, Repr

/-- Outcome of one invocation of the request builder. -/
inductive TOut where
  | err (e : TErr)
  | resp (status : Nat)
  deriving DecidableEq, Repr

/-- `isinstance(e, ReadTimeout)` (line 1696). -/
def isReadTimeoutErr : TErr → Bool
  | TErr.readTimeout => true
  | _ => false

/-- Observables of one `_wrap_request` call: the propagated exception or
final response status, how many times the request builder ran, whether the
shared session was reset, and whether the token-refresh hook ran. -/
structure WrapOut where
  result : Except TErr Nat
  calls : Nat
  sessionReset : Bool
  tokenRefreshed : Bool
  deriving Repr

/-- Lines 1721-1723: transient statuses retried once —
`{500, 502, 503}`, plus 504 only when not creating objects. -/
def retryStatusCodes (creating : Bool) : List Nat :=
  if creating then [500, 502, 503] else [500, 502, 503, 504]

/-- Lines 1718-1737: after the 401 stage — return immediately when retries
are disabled, otherwise retry once on a transient status and return
whatever the latest response is. -/
def wrapRetryPhase (retry_requests creating : Bool) (handler : Nat → TOut)
    (calls status : Nat) (didReset refreshed : Bool) : WrapOut :=
  if retry_requests = false then ⟨Except.ok status, calls, didReset, refreshed⟩
  else if status ∈ retryStatusCodes creating then
    match handler calls with
    | TOut.err e => ⟨Except.error e, calls + 1, didReset, refreshed⟩
    | TOut.resp s2 => ⟨Except.ok s2, calls + 1, didReset, refreshed⟩
  else ⟨Except.ok status, calls, didReset, refreshed⟩

/-- Lines 1707-1716: on a 401, refresh the token and re-invoke the builder
once — before and regardless of the retries-disabled check. -/
def wrapStatusPhase (retry_requests creating : Bool) (handler : Nat → TOut)
    (calls status : Nat) (didReset : Bool) : WrapOut :=
  if status = 401 then
    match handler calls with
    | TOut.err e => ⟨Except.error e, calls + 1, didReset, true⟩
    | TOut.resp s2 => wrapRetryPhase retry_requests creating handler (calls + 1) s2 didReset true
  else wrapRetryPhase retry_requests creating handler calls status didReset false

/-- `_wrap_request` (lines 1634-1737): transport-failure handling first
(lines 1678-1703) — propagate immediately when retries are disabled;
otherwise reset the shared session, propagate without a retry when
creating objects and the failure is specifically a read-timeout, and
otherwise re-invoke the builder once — then the 401 stage and the
transient-status stage. -/
def wrap_request (retry_requests creating : Bool) (handler : Nat → TOut) : WrapOut :=
  match handler 0 with
  | TOut.resp s => wrapStatusPhase retry_requests creating handler 1 s false
  | TOut.err e =>
    if retry_requests = false then ⟨Except.error e, 1, false, false⟩
    else if creating && isReadTimeoutErr e then ⟨Except.error e, 1, true, false⟩
    else
      match handler 1 with
      | TOut.err e2 => ⟨Except.error e2, 2, true, false⟩
      | TOut.resp s => wrapStatusPhase retry_requests creating handler 2 s true

/-- C6: when the first transport call fails with a connection-level error
or timeout: with retries disabled the error propagates immediately with a
single transport call and no session reset; with retries enabled but the
operation creating objects and the failure a read-timeout, the session is
reset and the error propagates without a second call; otherwise the
session is reset and the builder is re-invoked exactly once (a second
failure propagates, a successful non-retryable response is returned after
exactly two calls). -/
theorem claim_C6_transport_retry (handler : Nat → TOut) (creating retry : Bool)
    (e : TErr) (h0 : handler 0 = TOut.err e) :
    (retry = false →
      wrap_request retry creating handler = ⟨Except.error e, 1, false, false⟩) ∧
    (retry = true → creating = true → e = TErr.readTimeout →
      wrap_request retry creating handler = ⟨Except.error e, 1, true, false⟩) ∧
    (retry = true → ¬(creating = true ∧ e = TErr.readTimeout) →
      (∀ e2, handler 1 = TOut.err e2 →
        wrap_request retry creating handler = ⟨Except.error e2, 2, true, false⟩) ∧
      (∀ s, handler 1 = TOut.resp s → s ≠ 401 → s ∉ retryStatusCodes creating →
        wrap_request retry creating handler = ⟨Except.ok s, 2, true, false⟩)) := by
  refine ⟨?_, ?_, ?_⟩
  · intro hr
    subst hr
    simp [wrap_request, h0]
  · intro hr hc he
    subst hr; subst hc; subst he
    simp [wrap_request, h0, isReadTimeoutErr]
  · intro hr hne
    subst hr
    have hread : (creating && isReadTimeoutErr e) = false := by
      cases creating <;> cases e <;> simp_all [isReadTimeoutErr]
    constructor
    · intro e2 h1
      simp [wrap_request, h0, hread, h1]
    · intro s h1 h401 hnr
      simp [wrap_request, h0, hread, h1, wrapStatusPhase, h401, wrapRetryPhase, hnr]

/-- Witness for C6: a timeout on the first call with retries enabled on a
non-create request is retried exactly once and succeeds; with retries
disabled it propagates after one call; a read-timeout while creating
propagates after one call with the session reset. -/
theorem claim_C6_transport_retry_witness :
    (wrap_request true false
        (fun n => if n = 0 then TOut.err TErr.timeoutErr else TOut.resp 200) =
      ⟨Except.ok 200, 2, true, false⟩) ∧
    (wrap_request false false
        (fun n => if n = 0 then TOut.err TErr.timeoutErr else TOut.resp 200) =
      ⟨Except.error TErr.timeoutErr, 1, false, false⟩) ∧
    (wrap_request true true
        (fun n => if n = 0 then TOut.err TErr.readTimeout else TOut.resp 200) =
      ⟨Except.error TErr.readTimeout, 1, true, false⟩) := by
  refine ⟨?_, ?_, ?_⟩
  · exact ((claim_C6_transport_retry _ false true TErr.timeoutErr rfl).2.2 rfl
      (by simp)).2 200 rfl (by decide) (by decide)
  · exact (claim_C6_transport_retry _ false false TErr.timeoutErr rfl).1 rfl
  · exact (claim_C6_transport_retry _ true true TErr.readTimeout rfl).2.1 rfl rfl rfl

/-- C7: a 401 response triggers the token-refresh hook and exactly one
re-invocation of the builder, even when retries are disabled; transient
statuses (500/502/503, plus 504 only when not creating) are retried exactly
once but only when retries are enabled, and a 504 while creating is not
retried at all. -/
theorem claim_C7_auth_and_transient_retry (handler : Nat → TOut)
    (creating retry : Bool) :
    (∀ s, handler 0 = TOut.resp 401 → handler 1 = TOut.resp s →
      (retry = true → s ∉ retryStatusCodes creating) → s ≠ 401 →
      wrap_request retry creating handler = ⟨Except.ok s, 2, false, true⟩) ∧
    (∀ s s2, handler 0 = TOut.resp s → s ∈ retryStatusCodes creating →
      retry = true → handler 1 = TOut.resp s2 →
      wrap_request retry creating handler = ⟨Except.ok s2, 2, false, false⟩) ∧
    (∀ s, handler 0 = TOut.resp s → s ∈ retryStatusCodes creating →
      retry = false →
      wrap_request retry creating handler = ⟨Except.ok s, 1, false, false⟩) ∧
    (retry = true → creating = true → handler 0 = TOut.resp 504 →
      wrap_request retry creating handler = ⟨Except.ok 504, 1, false, false⟩) := by
  refine ⟨?_, ?_, ?_, ?_⟩
  · intro s h0 h1 hnr h401
    cases retry with
    | false =>
      simp [wrap_request, h0, wrapStatusPhase, h1, wrapRetryPhase]
    | true =>
      simp [wrap_request, h0, wrapStatusPhase, h1, wrapRetryPhase, hnr rfl]
  · intro s s2 h0 hs hr h1
    subst hr
    have h401 : ¬ s = 401 := by
      simp only [retryStatusCodes] at hs
      cases creating <;> simp_all <;> omega
    simp [wrap_request, h0, wrapStatusPhase, h401, wrapRetryPhase, hs, h1]
  · intro s h0 hs hr
    subst hr
    have h401 : ¬ s = 401 := by
      simp only [retryStatusCodes] at hs
      cases creating <;> simp_all <;> omega
    simp [wrap_request, h0, wrapStatusPhase, h401, wrapRetryPhase]
  · intro hr hc h0
    subst hr; subst hc
    simp [wrap_request, h0, wrapStatusPhase, wrapRetryPhase, retryStatusCodes]

/-- Witness for C7: a 401 then 200 refreshes the token and retries once
even with retries disabled; a 503 is retried once with retries enabled and
not retried with retries disabled; a 504 while creating is never
retried. -/
theorem claim_C7_auth_and_transient_retry_witness :
    (wrap_request false false
        (fun n => if n = 0 then TOut.resp 401 else TOut.resp 200) =
      ⟨Except.ok 200, 2, false, true⟩) ∧
    (wrap_request true false
        (fun n => if n = 0 then TOut.resp 503 else TOut.resp 200) =
      ⟨Except.ok 200, 2, false, false⟩) ∧
    (wrap_request false false
        (fun n => if n = 0 then TOut.resp 503 else TOut.resp 200) =
      ⟨Except.ok 503, 1, false, false⟩) ∧
    (wrap_request true true
        (fun _ => TOut.resp 504) = ⟨Except.ok 504, 1, false, false⟩) := by
  refine ⟨?_, ?_, ?_, ?_⟩
  · exact (claim_C7_auth_and_transient_retry _ false false).1 200 rfl rfl
      (by intro h; cases h) (by decide)
  · exact (claim_C7_auth_and_transient_retry _ false true).2.1 503 200 rfl
      (by decide) rfl rfl
  · exact (claim_C7_auth_and_transient_retry _ false false).2.2.1 503 rfl
      (by decide) rfl
  · exact (claim_C7_auth_and_transient_retry _ true true).2.2.2 rfl rfl rfl

/-! ## Read path: `parse_json_from_get_response` and the pagination loop
of `_get_objects` (lines 620-1148)

JSON bodies are abstracted to their already-extracted content: a parseable
body is the result list (the direct list, or the list under the configured
`multiple_results_json_path` key) together with whether the body carries a
`next` page pointer (`url_for_next_page`, line 1879: the `next` field);
`none` stands for unparsable JSON.  The model covers the plural
(non-singular) read path that the pagination claims are about. -/

/-- Content of one HTTP response in the pagination loop: its status code
and its body — `none` when the body is not parseable JSON, otherwise the
extracted result list (objects abstracted to numeric ids) and whether a
`next` pointer is present. -/
structure PageResp where
  status : Nat
  body : Option (List Nat × Bool)
  deriving DecidableEq, Repr

/-- `parse_json_from_get_response` (lines 711-749): 404 logs a warning and
returns `None` ("no results", not an error); 401/403 raise; any status
`>= 500` raises; any other status `>= 400` raises; otherwise the JSON is
returned, and a body that fails to parse raises. -/
def parse_json_from_get_response (status : Nat) (body : Option (List Nat × Bool)) :
    Except String (Option (List Nat × Bool)) :=
  if status = 404 then Except.ok none
  else if status = 401 ∨ status = 403 then Except.error "unauthorized"
  else if 500 ≤ status then Except.error "server error"
  else if 400 ≤ status then Except.error "4xx"
  else
    match body with
    | some b => Except.ok (some b)
    | none => Except.error "unparsable json"

/-- Result of one page visit: the objects yielded from this page, the
running object count afterwards, and whether the `top` cut-off fired
mid-page (line 1128: checked after each yield). -/
structure YieldRes where
  yielded : List Nat
  count : Nat
  stopped : Bool
  deriving DecidableEq, Repr

/-- The per-page yield loop (lines 1125-1129): increment the count, yield,
and return the instant the count reaches `top`. -/
def yieldPage (top : Option Nat) : Nat → List Nat → YieldRes
  | count, [] => ⟨[], count, false⟩
  | count, o :: os =>
    match top with
    | some t =>
      if t ≤ count + 1 then ⟨[o], count + 1, true⟩
      else
        let r := yieldPage top (count + 1) os
        ⟨o :: r.yielded, r.count, r.stopped⟩
    | none =>
      let r := yieldPage top (count + 1) os
      ⟨o :: r.yielded, r.count, r.stopped⟩

/-- Observables of one pagination stream: the objects yielded in order, the
number of page requests issued, and whether a fatal error was raised. -/
structure PaginateRes where
  yielded : List Nat
  requests : Nat
  raised : Bool
  deriving DecidableEq, Repr

/-- The pagination loop of `_get_objects` (lines 1044-1140) on the plural
path, with the page sequence along the `next` chain given as a list: fetch
the current page, parse it (404 terminates cleanly, other 4xx/5xx raise),
yield its objects stopping mid-page at `top`, and follow the `next` pointer
only when the cut-off has not fired. -/
def paginate (top : Option Nat) : Nat → List PageResp → PaginateRes
  | _, [] => ⟨[], 0, false⟩
  | count, p :: rest =>
    match parse_json_from_get_response p.status p.body with
    | Except.error _ => ⟨[], 1, true⟩
    | Except.ok none => ⟨[], 1, false⟩
    | Except.ok (some (objs, hasNext)) =>
      let y := yieldPage top count objs
      if y.stopped then ⟨y.yielded, 1, false⟩
      else if hasNext then
        let r := paginate top y.count rest
        ⟨y.yielded ++ r.yielded, r.requests + 1, r.raised⟩
      else ⟨y.yielded, 1, false⟩

/-- A well-formed P-page server response sequence: every page returns 200
with a parseable body, every page but the last advertises a `next` pointer
and the last page advertises none. -/
def mkPages : List (List Nat) → List PageResp
  | [] => []
  | [l] => [⟨200, some (l, false)⟩]
  | l :: ls => ⟨200, some (l, true)⟩ :: mkPages ls

/-- Spec-side count of how many pages the driver must fetch to yield `M`
objects: the index (1-based) of the page containing the M-th object. -/
def pagesNeeded (M : Nat) : List (List Nat) → Nat
  | [] => 0
  | l :: ls => if M ≤ l.length then 1 else 1 + pagesNeeded (M - l.length) ls

/-- C8: in a пagination stream a 404 response terminates the stream cleanly
— the parse returns "no results", no error is raised and no further object
is yielded nor page requested — while any other 4xx status and any status
`>= 500` raise a fatal error. -/
theorem claim_C8_get_404_clean_other_4xx_5xx_raise :
    (∀ body, parse_json_from_get_response 404 body = Except.ok none) ∧
    (∀ s body, 400 ≤ s → s < 500 → s ≠ 404 →
      ∃ m, parse_json_from_get_response s body = Except.error m) ∧
    (∀ s body, 500 ≤ s →
      ∃ m, parse_json_from_get_response s body = Except.error m) ∧
    (∀ (p : PageResp) rest top c, p.status = 404 →
      paginate top c (p :: rest) = ⟨[], 1, false⟩) ∧
    (∀ (p : PageResp) rest top c, 400 ≤ p.status → p.status ≠ 404 →
      paginate top c (p :: rest) = ⟨[], 1, true⟩) := by
  refine ⟨?_, ?_, ?_, ?_, ?_⟩
  · intro body
    simp [parse_json_from_get_response]
  · intro s body h4 h5 hne
    by_cases h1 : s = 401 ∨ s = 403
    · exact ⟨"unauthorized", by simp [parse_json_from_get_response, hne, h1]⟩
    · have h500 : ¬ 500 ≤ s := by omega
      exact ⟨"4xx", by simp [parse_json_from_get_response, hne, h1, h500, h4]⟩
  · intro s body h5
    have hne : s ≠ 404 := by omega
    have h1 : ¬ (s = 401 ∨ s = 403) := by omega
    exact ⟨"server error", by simp [parse_json_from_get_response, hne, h1, h5]⟩
  · intro p rest top c h404
    simp [paginate, parse_json_from_get_response, h404]
  · intro p rest top c h4 hne
    rcases hparse : parse_json_from_get_response p.status p.body with m | j
    · simp [paginate, hparse]
    · exfalso
      by_cases h1 : p.status = 401 ∨ p.status = 403
      · simp [parse_json_from_get_response, hne, h1] at hparse
      · by_cases h5 : 500 ≤ p.status
        · simp [parse_json_from_get_response, hne, h1, h5] at hparse
        · simp [parse_json_from_get_response, hne, h1, h5, h4] at hparse

/-- Witness for C8 at concrete statuses: 404 parses to "no results" and
stops the stream cleanly after one request; 403 and 500 raise. -/
theorem claim_C8_get_404_clean_witness :
    parse_json_from_get_response 404 (some ([1], true)) = Except.ok none ∧
    (∃ m, parse_json_from_get_response 403 (some ([1], true)) = Except.error m) ∧
    (∃ m, parse_json_from_get_response 500 none = Except.error m) ∧
    paginate none 0 [⟨404, none⟩] = ⟨[], 1, false⟩ ∧
    paginate none 0 [⟨500, some ([1], true)⟩, ⟨200, some ([2], false)⟩] =
      ⟨[], 1, true⟩ := by
  refine ⟨?_, ?_, ?_, ?_, ?_⟩
  · exact claim_C8_get_404_clean_other_4xx_5xx_raise.1 _
  · exact claim_C8_get_404_clean_other_4xx_5xx_raise.2.1 403 _ (by decide)
      (by decide) (by decide)
  · exact claim_C8_get_404_clean_other_4xx_5xx_raise.2.2.1 500 _ (by decide)
  · exact claim_C8_get_404_clean_other_4xx_5xx_raise.2.2.2.1 _ _ _ _ rfl
  · exact claim_C8_get_404_clean_other_4xx_5xx_raise.2.2.2.2 _ _ _ _ (by decide)
      (by decide)

theorem yieldPage_none (l : List Nat) : ∀ c : Nat,
    yieldPage none c l = ⟨l, c + l.length, false⟩ := by
  induction l with
  | nil => intro c; simp [yieldPage]
  | cons o os ih =>
    intro c
    simp only [yieldPage, ih, List.length_cons, YieldRes.mk.injEq, true_and,
               and_true]
    omega

theorem yieldPage_stop (t : Nat) : ∀ (l : List Nat) (c : Nat),
    c < t → t ≤ c + l.length →
    yieldPage (some t) c l = ⟨l.take (t - c), t, true⟩ := by
  intro l
  induction l with
  | nil =>
    intro c h1 h2
    simp only [List.length_nil, Nat.add_zero] at h2
    omega
  | cons o os ih =>
    intro c h1 h2
    by_cases hle : t ≤ c + 1
    · have ht : t = c + 1 := by omega
      subst ht
      simp [yieldPage, show c + 1 - c = 1 by omega]
    · simp only [yieldPage, if_neg hle]
      rw [ih (c + 1) (by omega) (by simp only [List.length_cons] at h2; omega)]
      have he : t - c = (t - (c + 1)) + 1 := by omega
      rw [he]
      simp [List.take_succ_cons]

theorem yieldPage_no_stop (t : Nat) : ∀ (l : List Nat) (c : Nat),
    c + l.length < t →
    yieldPage (some t) c l = ⟨l, c + l.length, false⟩ := by
  intro l
  induction l with
  | nil => intro c h; simp [yieldPage]
  | cons o os ih =>
    intro c h
    simp only [List.length_cons] at h
    simp only [yieldPage, if_neg (by omega : ¬ t ≤ c + 1)]
    rw [ih (c + 1) (by omega)]
    simp only [List.length_cons, YieldRes.mk.injEq, true_and, and_true]
    omega

theorem paginate_no_top : ∀ (pls : List (List Nat)) (c : Nat), pls ≠ [] →
    paginate none c (mkPages pls) = ⟨pls.flatten, pls.length, false⟩ := by
  intro pls
  induction pls with
  | nil => intro c h; exact absurd rfl h
  | cons l ls ih =>
    intro c h
    cases ls with
    | nil =>
      simp [mkPages, paginate, parse_json_from_get_response, yieldPage_none]
    | cons l2 ls2 =>
      simp only [mkPages, paginate, parse_json_from_get_response]
      norm_num
      rw [yieldPage_none]
      simp only
      rw [ih (c + l.length) (by simp)]
      simp

theorem paginate_top : ∀ (pls : List (List Nat)) (c t : Nat), pls ≠ [] →
    c < t → t ≤ c + pls.flatten.length →
    paginate (some t) c (mkPages pls) =
      ⟨pls.flatten.take (t - c), pagesNeeded (t - c) pls, false⟩ := by
  intro pls
  induction pls with
  | nil => intro c t h; exact absurd rfl h
  | cons l ls ih =>
    intro c t h hc ht
    cases ls with
    | nil =>
      have ht2 : t ≤ c + l.length := by
        simpa using ht
      simp only [mkPages, paginate, parse_json_from_get_response]
      norm_num
      rw [yieldPage_stop t l c hc ht2]
      have hpn : t - c ≤ l.length := by omega
      simp [pagesNeeded, hpn]
    | cons l2 ls2 =>
      by_cases hstop : t ≤ c + l.length
      · simp only [mkPages, paginate, parse_json_from_get_response]
        norm_num
        rw [yieldPage_stop t l c hc hstop]
        have hpn : t - c ≤ l.length := by omega
        have htake : (l ++ (l2 :: ls2).flatten).take (t - c) = l.take (t - c) :=
          List.take_append_of_le_length (by omega)
        simp [pagesNeeded, hpn, htake]
      · simp only [mkPages, paginate, parse_json_from_get_response]
        norm_num
        rw [yieldPage_no_stop t l c (by omega)]
        simp only
        rw [ih (c + l.length) t (by simp) (by omega)
              (by simp only [List.flatten_cons, List.length_append] at ht ⊢; omega)]
        have hgt : ¬ t - c ≤ l.length := by omega
        have he : t - (c + l.length) = t - c - l.length := by omega
        simp only [Bool.false_eq_true, if_false, List.flatten_cons,
                   PaginateRes.mk.injEq, and_true]
        refine ⟨?_, ?_⟩
        · conv_rhs => rw [List.take_append_eq_append_take]
          rw [List.take_of_length_le (show l.length ≤ t - c by omega), he]
        · rw [he, show pagesNeeded (t - c) (l :: l2 :: ls2)
                = if t - c ≤ l.length then 1
                  else 1 + pagesNeeded (t - c - l.length) (l2 :: ls2) from rfl,
              if_neg hgt]
          exact Nat.add_comm _ 1

/-- C5 (counterexample): the cut-off check runs *after* each yield
(line 1128), so asking for a maximum of 0 objects from a one-object page
still yields 1 object — the claim's "exactly M objects are yielded" fails
at M = 0 < total. -/
theorem claim_C5_counterexample_top_zero :
    0 < ([[7]] : List (List Nat)).flatten.length ∧
    paginate (some 0) 0 (mkPages [[7]]) = ⟨[7], 1, false⟩ ∧
    (paginate (some 0) 0 (mkPages [[7]])).yielded.length ≠ 0 := by
  decide

/-- C5 (amended: the max-count part restricted to 1 <= M): over P pages
each advertising a next pointer except the last, streaming with no maximum
yields exactly the concatenation of all pages in order with one request per
page and no error; with a maximum count M, 1 <= M < total, exactly the
first M objects are yielded, the stream stops mid-page the moment the count
reaches M, and exactly the pages up to the one containing the M-th object
are requested. -/
theorem claim_C5_pagination_stream (pls : List (List Nat)) (hne : pls ≠ []) :
    paginate none 0 (mkPages pls) = ⟨pls.flatten, pls.length, false⟩ ∧
    (∀ M, 1 ≤ M → M < pls.flatten.length →
      paginate (some M) 0 (mkPages pls) =
        ⟨pls.flatten.take M, pagesNeeded M pls, false⟩) := by
  refine ⟨paginate_no_top pls 0 hne, ?_⟩
  intro M h1 h2
  have h := paginate_top pls 0 M hne (by omega) (by omega)
  simpa using h

/-- Witness for C5 (amended) at a concrete input: pages [1,2] / [3] /
[4,5]; no maximum yields all five objects with three requests; maximum 3
yields [1, 2, 3] with two requests only. -/
theorem claim_C5_pagination_stream_witness :
    paginate none 0 (mkPages [[1, 2], [3], [4, 5]]) = ⟨[1, 2, 3, 4, 5], 3, false⟩ ∧
    paginate (some 3) 0 (mkPages [[1, 2], [3], [4, 5]]) = ⟨[1, 2, 3], 2, false⟩ := by
  have h := claim_C5_pagination_stream [[1, 2], [3], [4, 5]] (by decide)
  refine ⟨by simpa using h.1, ?_⟩
  have h2 := h.2 3 (by decide) (by decide)
  simpa using h2

/-! ## Endpoint candidate search: `url_for_endpoint` (lines 2039-2212)

URL construction (base url appending) is abstracted into the candidate
list itself: each candidate stands for one `base_url + model_url + url`
combination from the cached `all_urls()` generator, carrying its
singular flag, its supported HTTP methods and whether
`is_valid(secondary_values=..., attach_values=True)` succeeds (candidate
formatting is deterministic and idempotent, so validity is a field rather
than a call). -/

/-- A candidate endpoint URL as the search sees it. The `xurls` singular
flag may be unset, hence `Option Bool`. -/
structure CandidateURL where
  singular : Option Bool
  methods : List String
  valid : Bool
  deriving DecidableEq, Repr

/-- The selection test of one loop iteration (lines 2193-2201): a
candidate is skipped unless the current singular preference is `None` or
equals the candidate's singular flag (Python `singular is not None and
candidate_url.singular != singular` skips), the candidate's methods
contain the current method (`methods_contain`), and it formats fully
(`is_valid`). -/
def candidateMatches (pref : Option Bool) (m : String) (c : CandidateURL) : Bool :=
  (pref.isNone || decide (c.singular = pref)) && c.methods.contains m && c.valid

/-- `url_for_endpoint` (lines 2189-2203): iterate `singular_values`
(outer), then `methods`, then the cached candidate list in declared order,
returning the first match with its methods set to exactly the matched
method (line 2202: `candidate_url.methods = (method,)`). -/
def url_for_endpoint (singular_values : List (Option Bool))
    (methods : List String) (candidates : List CandidateURL) :
    Option CandidateURL :=
  singular_values.findSome? (fun pref =>
    methods.findSome? (fun m =>
      candidates.findSome? (fun c =>
        if candidateMatches pref m c then some { c with methods := [m] }
        else none)))

/-- The flattened priority order of the triple-nested loop: singular
preference outermost, then method, then candidate declaration order. -/
def candidateTriples (svs : List (Option Bool)) (ms : List String)
    (cs : List CandidateURL) : List (Option Bool × String × CandidateURL) :=
  svs.flatMap (fun p => ms.flatMap (fun m => cs.map (fun c => (p, m, c))))

theorem find?_append_some {α : Type} (p : α → Bool) (l1 l2 : List α) (x : α)
    (h : l1.find? p = some x) : (l1 ++ l2).find? p = some x := by
  induction l1 with
  | nil => simp [List.find?] at h
  | cons a as ih =>
    by_cases hp : p a
    · simp only [List.find?_cons_of_pos _ hp] at h
      simp only [List.cons_append, List.find?_cons_of_pos _ hp]
      exact h
    · simp only [List.find?_cons_of_neg _ hp] at h
      simp only [List.cons_append, List.find?_cons_of_neg _ hp]
      exact ih h

theorem find?_append_none {α : Type} (p : α → Bool) (l1 l2 : List α)
    (h : l1.find? p = none) : (l1 ++ l2).find? p = l2.find? p := by
  induction l1 with
  | nil => simp
  | cons a as ih =>
    by_cases hp : p a
    · simp [List.find?_cons_of_pos _ hp] at h
    · simp only [List.find?_cons_of_neg _ hp] at h
      simp only [List.cons_append, List.find?_cons_of_neg _ hp]
      exact ih h

theorem url_candidates_findSome (p : Option Bool) (m : String) :
    ∀ cs : List CandidateURL,
      cs.findSome? (fun c =>
          if candidateMatches p m c then some { c with methods := [m] }
          else none) =
        ((cs.map (fun c => (p, m, c))).find?
            (fun t => candidateMatches t.1 t.2.1 t.2.2)).map
          (fun t => { t.2.2 with methods := [t.2.1] }) := by
  intro cs
  induction cs with
  | nil => rfl
  | cons c cs ih =>
    by_cases hm : candidateMatches p m c
    · simp [List.findSome?_cons, List.find?_cons_of_pos, hm]
    · simp only [List.findSome?_cons, hm, Bool.false_eq_true, if_false,
                 List.map_cons]
      rw [List.find?_cons_of_neg _ (by simpa using hm)]
      exact ih

theorem url_methods_findSome (p : Option Bool) (cs : List CandidateURL) :
    ∀ ms : List String,
      ms.findSome? (fun m =>
          cs.findSome? (fun c =>
            if candidateMatches p m c then some { c with methods := [m] }
            else none)) =
        ((ms.flatMap (fun m => cs.map (fun c => (p, m, c)))).find?
            (fun t => candidateMatches t.1 t.2.1 t.2.2)).map
          (fun t => { t.2.2 with methods := [t.2.1] }) := by
  intro ms
  induction ms with
  | nil => rfl
  | cons m ms ih =>
    rw [List.flatMap_cons, List.findSome?_cons, url_candidates_findSome p m cs]
    cases hf : (cs.map (fun c => (p, m, c))).find?
        (fun t => candidateMatches t.1 t.2.1 t.2.2) with
    | some t =>
      rw [find?_append_some _ _ _ _ hf]
      simp
    | none =>
      rw [find?_append_none _ _ _ hf]
      simpa using ih

theorem url_svs_findSome (ms : List String) (cs : List CandidateURL) :
    ∀ svs : List (Option Bool),
      url_for_endpoint svs ms cs =
        ((candidateTriples svs ms cs).find?
            (fun t => candidateMatches t.1 t.2.1 t.2.2)).map
          (fun t => { t.2.2 with methods := [t.2.1] }) := by
  intro svs
  induction svs with
  | nil => rfl
  | cons p svs ih =>
    rw [url_for_endpoint, candidateTriples, List.flatMap_cons,
        List.findSome?_cons, url_methods_findSome p cs ms]
    cases hf : (ms.flatMap (fun m => cs.map (fun c => (p, m, c)))).find?
        (fun t => candidateMatches t.1 t.2.1 t.2.2) with
    | some t =>
      rw [find?_append_some _ _ _ _ hf]
      simp
    | none =>
      rw [find?_append_none _ _ _ hf]
      simpa [url_for_endpoint, candidateTriples] using ih

/-- C4: the endpoint search equals a first-match scan over the flattened
triple order — singular preference outermost, then methods, then
candidates in declared order — selecting the first candidate whose
singular flag matches the current preference (or the preference is None),
that supports the current method, and that formats fully; and every
returned URL carries exactly one HTTP method, the one that matched. -/
theorem claim_C4_resolution_order (svs : List (Option Bool)) (ms : List String)
    (cs : List CandidateURL) :
    (url_for_endpoint svs ms cs =
      ((candidateTriples svs ms cs).find?
          (fun t => candidateMatches t.1 t.2.1 t.2.2)).map
        (fun t => { t.2.2 with methods := [t.2.1] })) ∧
    (∀ r, url_for_endpoint svs ms cs = some r →
      ∃ p m c, (p, m, c) ∈ candidateTriples svs ms cs ∧
        candidateMatches p m c = true ∧
        r = { c with methods := [m] } ∧ r.methods = [m]) := by
  refine ⟨url_svs_findSome ms cs svs, ?_⟩
  intro r hr
  rw [url_svs_findSome ms cs svs] at hr
  cases hf : (candidateTriples svs ms cs).find?
      (fun t => candidateMatches t.1 t.2.1 t.2.2) with
  | none => rw [hf] at hr; simp at hr
  | some t =>
    rw [hf] at hr
    obtain ⟨p, m, c⟩ := t
    have hr2 : r = { c with methods := [m] } := by
      simpa using hr.symm
    refine ⟨p, m, c, List.mem_of_find?_eq_some hf, ?_, hr2, ?_⟩
    · simpa using List.find?_some hf
    · rw [hr2]

/-- Witness for C4 at a concrete input: with preference order
[singular, no-preference] and method POST, the plural-only first candidate
is skipped and the singular second candidate is returned carrying exactly
the POST method. -/
theorem claim_C4_resolution_order_witness :
    url_for_endpoint [some true, none] ["POST"]
        [⟨some false, ["PATCH", "POST"], true⟩, ⟨some true, ["POST"], true⟩] =
      some ⟨some true, ["POST"], true⟩ ∧
    (∃ p m c,
      (p, m, c) ∈ candidateTriples [some true, none] ["POST"]
          [⟨some false, ["PATCH", "POST"], true⟩, ⟨some true, ["POST"], true⟩] ∧
      candidateMatches p m c = true ∧
      (⟨some true, ["POST"], true⟩ : CandidateURL) = { c with methods := [m] } ∧
      (⟨some true, ["POST"], true⟩ : CandidateURL).methods = [m]) := by
  constructor
  · rfl
  · exact (claim_C4_resolution_order [some true, none] ["POST"]
      [⟨some false, ["PATCH", "POST"], true⟩, ⟨some true, ["POST"], true⟩]).2
      ⟨some true, ["POST"], true⟩ rfl
